import Mathlib

/-!
Verification of `src/C_C++/StackAllocator.h` (repository Jazzzy/CodeUtils):
a fixed-capacity stack (bump) allocator `StackAllocator<N, alignment>`.

Shallow embedding.  The mutable state of the allocator is the cursor
offset `c = pointer - buffer : Nat`.  A `char *` value is modelled as an
absolute address (`Nat`); `base` is the address of `buffer`, so the
current `pointer` is `base + c` and a marker is such an address.
`std::size_t` / `uintptr_t` arithmetic is 64-bit: where the source can
wrap (the sum in `align_up`, the `static_cast<std::size_t>` in
`allocate`) the embedding reduces mod `2 ^ 64` explicitly.  Pointer
arithmetic on addresses inside the buffer never wraps and is modelled on
plain naturals.
-/

namespace StackAllocator

/-- Width of `std::size_t` and `uintptr_t` on the modelled platform: 64 bits. -/
def wordSize : Nat := 2 ^ 64

/-- Template parameters `N` (buffer capacity) and `alignment` (`A`) of
`StackAllocator<N, alignment>`, plus the address `base` of the member
`buffer`.  In the source `alignas(alignment) char buffer[N]`. -/
structure Config where
  N : Nat
  A : Nat
  base : Nat

/-- Platform facts guaranteed by the source: `alignment` is a power of two
(default `alignof(std::max_align_t)`), `alignas(alignment)` makes the buffer
address a multiple of `alignment`, `N` is a `std::size_t` value, and the
address of a live C++ object is never the null address. -/
def Config.WF (cfg : Config) : Prop :=
  (∃ k, k ≤ 64 ∧ cfg.A = 2 ^ k) ∧ cfg.base % cfg.A = 0 ∧ cfg.N < wordSize ∧ 0 < cfg.base

/-- Source: `align_up(n) = (n + (alignment - 1)) & ~(alignment - 1)` in
`std::size_t` arithmetic: the sum wraps mod `2 ^ 64`, and the bitwise
complement of `alignment - 1` within 64 bits is `(2 ^ 64 - 1) - (alignment - 1)`. -/
def align_up (cfg : Config) (n : Nat) : Nat :=
  ((n + (cfg.A - 1)) % wordSize) &&& ((wordSize - 1) - (cfg.A - 1))

/-- Source: `isAligned(p) = (((uintptr_t) p & (alignment - 1)) == 0)`. -/
def isAligned (cfg : Config) (p : Nat) : Bool :=
  (p &&& (cfg.A - 1)) == 0

/-- Source: `pointer_in_buffer(p) = (buffer <= p && p <= buffer + N)`. -/
def pointer_in_buffer (cfg : Config) (p : Nat) : Bool :=
  decide (cfg.base ≤ p) && decide (p ≤ cfg.base + cfg.N)

/-- The guard value `static_cast<std::size_t>(buffer - pointer + N)` used by
`allocate`: the `ptrdiff_t` value `N - c` converted to `std::size_t`,
i.e. reduced into `[0, 2 ^ 64)`. -/
def remainingCast (cfg : Config) (c : Nat) : Nat :=
  (((cfg.N : Int) - (c : Int)) % (wordSize : Int)).toNat

/-- Source: `allocate<ReqAlign>(n)`.  The `static_assert(ReqAlign <= alignment)`
is compile-time only and has no run-time effect, so `ReqAlign` does not appear.
Returns the returned pointer (`none` models `nullptr`) together with the new
cursor: on success the old `pointer` is returned and the cursor advances by
`align_up(n)`; otherwise the cursor is unchanged. -/
def allocate (cfg : Config) (c : Nat) (n : Nat) : Option Nat × Nat :=
  let aligned_n := align_up cfg n
  if remainingCast cfg c ≥ aligned_n then
    (some (cfg.base + c), c + aligned_n)
  else
    (none, c)

/-- Source: `deallocate(p, n)`: if `pointer_in_buffer(p)` and
`p + align_up(n) == pointer` then `pointer = p`; otherwise no effect.
Returns the new cursor. -/
def deallocate (cfg : Config) (c : Nat) (p : Nat) (n : Nat) : Nat :=
  if pointer_in_buffer cfg p then
    if p + align_up cfg n = cfg.base + c then p - cfg.base else c
  else
    c

/-- Source: `getCurrentMarker()` returns the current `pointer`. -/
def getCurrentMarker (cfg : Config) (c : Nat) : Nat :=
  cfg.base + c

/-- Source: `used() = pointer - buffer`. -/
def used (c : Nat) : Nat := c

/-- Source: `size()` returns `N`. -/
def size (cfg : Config) : Nat := cfg.N

/-- Source: `reset()` sets `pointer = buffer`. -/
def reset (_c : Nat) : Nat := 0

/-- Source: `resetToMarker(p)`: if `pointer_in_buffer(p) && isAligned(p)` then
`pointer = p`.  The diagnostic line `std::cerr << "The pointer provided is not
aligned: " ...` sits outside that conditional, so it runs on every call; the
second component records whether the diagnostic was written to the standard
error stream. -/
def resetToMarker (cfg : Config) (c : Nat) (p : Nat) : Nat × Bool :=
  (if pointer_in_buffer cfg p && isAligned cfg p then p - cfg.base else c, true)

/-- Running a sequence of `allocate` calls (sizes `ns`), keeping only the
cursor. -/
def allocMany (cfg : Config) (c : Nat) (ns : List Nat) : Nat :=
  ns.foldl (fun cur n => (allocate cfg cur n).2) c

/-- One mutating call on the allocator (cursor before to cursor after). -/
inductive Step (cfg : Config) : Nat → Nat → Prop where
  | alloc (c n : Nat) : Step cfg c (allocate cfg c n).2
  | free (c p n : Nat) : Step cfg c (deallocate cfg c p n)
  | marker (c p : Nat) : Step cfg c (resetToMarker cfg c p).1
  | clear (c : Nat) : Step cfg c (reset c)

/-- Cursor values reachable from the freshly constructed allocator
(`pointer = buffer`, i.e. cursor `0`) by any sequence of calls. -/
inductive Reachable (cfg : Config) : Nat → Prop where
  | init : Reachable cfg 0
  | step {c c' : Nat} : Reachable cfg c → Step cfg c c' → Reachable cfg c'

/-! ### Arithmetic helper lemmas -/

/-- Masking with the 64-bit complement of `2 ^ k - 1` clears the low `k` bits:
for `x < 2 ^ 64` it yields `x - x % 2 ^ k`. -/
theorem and_high_mask (k x : Nat) (hk : k ≤ 64) (hx : x < 2 ^ 64) :
    x &&& ((2 ^ 64 - 1) - (2 ^ k - 1)) = x - x % 2 ^ k := by
  have hkpos : (0:Nat) < 2 ^ k := Nat.two_pow_pos k
  have h1 : (2 ^ 64 - 1) - (2 ^ k - 1) = (2 ^ (64 - k) - 1) <<< k := by
    rw [Nat.shiftLeft_eq, Nat.sub_one_mul, ← Nat.pow_add, Nat.sub_add_cancel hk]
    omega
  have h2 : x - x % 2 ^ k = (x >>> k) <<< k := by
    rw [Nat.shiftLeft_eq, Nat.shiftRight_eq_div_pow]
    have hd := Nat.div_add_mod x (2 ^ k)
    rw [Nat.mul_comm] at hd
    omega
  rw [h1, h2]
  apply Nat.eq_of_testBit_eq
  intro i
  simp only [Nat.testBit_land, Nat.testBit_shiftLeft, Nat.testBit_shiftRight,
    Nat.testBit_two_pow_sub_one]
  by_cases hik : k ≤ i
  · have hki : k + (i - k) = i := by omega
    rw [hki]
    by_cases hi64 : i < 64
    · have : i - k < 64 - k := by omega
      simp [hik, this, ge_iff_le]
    · have hxi : x.testBit i = false := by
        refine Nat.testBit_lt_two_pow (lt_of_lt_of_le hx ?_)
        exact Nat.pow_le_pow_right (by omega) (by omega)
      have : ¬ (i - k < 64 - k) := by omega
      simp [hxi, this]
  · simp [ge_iff_le, hik]

/-- The subtracted-remainder form of rounding down to a multiple. -/
theorem sub_mod_eq_mul_div (s m : Nat) : s - s % m = m * (s / m) :=
  Nat.sub_eq_of_eq_add ((Nat.div_add_mod s m).symm)

/-- Closed form of `align_up` under the power-of-two hypothesis on the
alignment. -/
theorem align_up_eq (cfg : Config) {k : Nat} (hk : k ≤ 64) (hA : cfg.A = 2 ^ k)
    (n : Nat) :
    align_up cfg n =
      (n + (cfg.A - 1)) % wordSize - ((n + (cfg.A - 1)) % wordSize) % cfg.A := by
  unfold align_up wordSize
  rw [hA]
  exact and_high_mask k _ hk (Nat.mod_lt _ (Nat.two_pow_pos 64))

/-- The padded size is always a multiple of the arena alignment, wrap or not. -/
theorem align_up_dvd (cfg : Config) {k : Nat} (hk : k ≤ 64) (hA : cfg.A = 2 ^ k)
    (n : Nat) : cfg.A ∣ align_up cfg n := by
  rw [align_up_eq cfg hk hA, sub_mod_eq_mul_div]
  exact Dvd.intro _ rfl

/-- When the sum `n + (A - 1)` does not wrap, `align_up` is ordinary
rounding up. -/
theorem align_up_no_overflow (cfg : Config) {k : Nat} (hk : k ≤ 64)
    (hA : cfg.A = 2 ^ k) {n : Nat} (h : n + (cfg.A - 1) < wordSize) :
    align_up cfg n = (n + (cfg.A - 1)) - (n + (cfg.A - 1)) % cfg.A := by
  rw [align_up_eq cfg hk hA, Nat.mod_eq_of_lt h]

/-- Without wrap, the padded size is at least the request. -/
theorem align_up_ge (cfg : Config) {k : Nat} (hk : k ≤ 64) (hA : cfg.A = 2 ^ k)
    {n : Nat} (h : n + (cfg.A - 1) < wordSize) : n ≤ align_up cfg n := by
  rw [align_up_no_overflow cfg hk hA h]
  have hApos : 0 < cfg.A := by rw [hA]; exact Nat.two_pow_pos k
  have := Nat.mod_lt (n + (cfg.A - 1)) hApos
  omega

/-- Without wrap, the padded size is below `n + A`. -/
theorem align_up_le (cfg : Config) {k : Nat} (hk : k ≤ 64) (hA : cfg.A = 2 ^ k)
    {n : Nat} (h : n + (cfg.A - 1) < wordSize) :
    align_up cfg n ≤ n + (cfg.A - 1) := by
  rw [align_up_no_overflow cfg hk hA h]
  omega

/-- Without wrap, `align_up n` is below every multiple of `A` that is `≥ n`. -/
theorem align_up_min (cfg : Config) {k : Nat} (hk : k ≤ 64) (hA : cfg.A = 2 ^ k)
    {n r : Nat} (h : n + (cfg.A - 1) < wordSize) (hdvd : cfg.A ∣ r)
    (hnr : n ≤ r) : align_up cfg n ≤ r := by
  by_contra hlt
  push_neg at hlt
  have hd := align_up_dvd cfg hk hA n
  have hub := align_up_le cfg hk hA h
  have h1 : cfg.A ∣ (align_up cfg n - r) := Nat.dvd_sub' hd hdvd
  have h2 : 0 < align_up cfg n - r := by omega
  have h3 : cfg.A ≤ align_up cfg n - r := Nat.le_of_dvd h2 h1
  have hApos : 0 < cfg.A := by rw [hA]; exact Nat.two_pow_pos k
  omega

/-- The alignment test on an address is exactly divisibility by `A`. -/
theorem isAligned_iff (cfg : Config) {k : Nat} (hA : cfg.A = 2 ^ k) (p : Nat) :
    isAligned cfg p = true ↔ p % cfg.A = 0 := by
  unfold isAligned
  rw [hA, Nat.and_pow_two_sub_one_eq_mod]
  simp

/-- The membership test on an address, unfolded. -/
theorem pointer_in_buffer_iff (cfg : Config) (p : Nat) :
    pointer_in_buffer cfg p = true ↔ cfg.base ≤ p ∧ p ≤ cfg.base + cfg.N := by
  unfold pointer_in_buffer
  simp

/-- In any state satisfying the cursor invariant, the guard value of
`allocate` is the true remaining capacity `N - c`. -/
theorem remainingCast_eq (cfg : Config) {c : Nat} (hc : c ≤ cfg.N)
    (hN : cfg.N < wordSize) : remainingCast cfg c = cfg.N - c := by
  unfold remainingCast wordSize at *
  omega

/-- Success branch of `allocate`, as an equation. -/
theorem allocate_eq_pos (cfg : Config) (c n : Nat)
    (h : align_up cfg n ≤ remainingCast cfg c) :
    allocate cfg c n = (some (cfg.base + c), c + align_up cfg n) := by
  simp [allocate, ge_iff_le, h]

/-- Failure branch of `allocate`, as an equation. -/
theorem allocate_eq_neg (cfg : Config) (c n : Nat)
    (h : ¬ align_up cfg n ≤ remainingCast cfg c) :
    allocate cfg c n = (none, c) := by
  simp [allocate, ge_iff_le, h]

/-- The state invariant of the allocator: every reachable cursor is a
multiple of the arena alignment and never exceeds the capacity. -/
theorem reachable_inv (cfg : Config) (hWF : cfg.WF) {c : Nat}
    (h : Reachable cfg c) : cfg.A ∣ c ∧ c ≤ cfg.N := by
  obtain ⟨⟨k, hk, hA⟩, hbase, hN, hb0⟩ := hWF
  induction h with
  | init => exact ⟨Nat.dvd_zero _, Nat.zero_le _⟩
  | step hr hs ih =>
    rename_i c c'
    cases hs with
    | alloc n =>
      by_cases hcond : align_up cfg n ≤ remainingCast cfg c
      · rw [allocate_eq_pos cfg c n hcond]
        have hrc : remainingCast cfg c = cfg.N - c := remainingCast_eq cfg ih.2 hN
        refine ⟨Nat.dvd_add ih.1 (align_up_dvd cfg hk hA n), ?_⟩
        omega
      · rw [allocate_eq_neg cfg c n hcond]
        exact ih
    | free p n =>
      by_cases hin : cfg.base ≤ p ∧ p ≤ cfg.base + cfg.N
      · have hb : pointer_in_buffer cfg p = true := (pointer_in_buffer_iff cfg p).2 hin
        by_cases heq : p + align_up cfg n = cfg.base + c
        · have hd := align_up_dvd cfg hk hA n
          have h1 : deallocate cfg c p n = p - cfg.base := by
            simp [deallocate, hb, heq]
          have h2 : p - cfg.base = c - align_up cfg n := by
            obtain ⟨hl, hu⟩ := hin
            omega
          rw [h1, h2]
          exact ⟨Nat.dvd_sub' ih.1 hd, by omega⟩
        · have h1 : deallocate cfg c p n = c := by
            simp [deallocate, hb, heq]
          rw [h1]
          exact ih
      · have hb : pointer_in_buffer cfg p = false := by
          rw [← Bool.not_eq_true, pointer_in_buffer_iff]
          exact hin
        have h1 : deallocate cfg c p n = c := by
          simp [deallocate, hb]
        rw [h1]
        exact ih
    | marker p =>
      by_cases hcond : (pointer_in_buffer cfg p && isAligned cfg p) = true
      · have hc2 := hcond
        rw [Bool.and_eq_true, pointer_in_buffer_iff, isAligned_iff cfg hA] at hc2
        obtain ⟨⟨h1, h2⟩, h3⟩ := hc2
        have hpd : cfg.A ∣ p := Nat.dvd_of_mod_eq_zero h3
        have hbd : cfg.A ∣ cfg.base := Nat.dvd_of_mod_eq_zero hbase
        have h4 : (resetToMarker cfg c p).1 = p - cfg.base := by
          simp [resetToMarker, hcond]
        rw [h4]
        exact ⟨Nat.dvd_sub' hpd hbd, by omega⟩
      · rw [Bool.not_eq_true] at hcond
        have h4 : (resetToMarker cfg c p).1 = c := by
          simp [resetToMarker, hcond]
        rw [h4]
        exact ih
    | clear =>
      exact ⟨Nat.dvd_zero _, Nat.zero_le _⟩

/-- Concrete test instance: `StackAllocator<64, 8>` with its buffer at
address 16. -/
def cfg64 : Config := ⟨64, 8, 16⟩

theorem cfg64_wf : cfg64.WF :=
  ⟨⟨3, by omega, rfl⟩, by decide, by decide, by decide⟩

/-- C4: for every arena whose alignment is a positive power of two, every
state reachable from the initial state (cursor 0) by any sequence of
`allocate`, `deallocate`, `getCurrentMarker`, `resetToMarker`, `reset` calls
has a cursor that is a multiple of `A` and satisfies `0 ≤ cursor ≤ N` (the
lower bound holds because the cursor is a natural number). -/
theorem cursor_invariant (cfg : Config) (hWF : cfg.WF) {c : Nat}
    (h : Reachable cfg c) : cfg.A ∣ c ∧ c ≤ cfg.N :=
  reachable_inv cfg hWF h

theorem cursor_invariant_witness : cfg64.A ∣ 0 ∧ 0 ≤ cfg64.N :=
  cursor_invariant cfg64 cfg64_wf Reachable.init

/-- C1: from any arena state with `used() = c` (so `c ≤ N`), a request of
`n` bytes succeeds iff `align_up(n) ≤ N - c`; on success it returns the
current cursor position `buffer + c` and advances the cursor by
`align_up(n)`; on failure it returns the sentinel `nullptr` (`none`) and
leaves the cursor unchanged.  The `req_align ≤ A` precondition is a
`static_assert`, hence compile-time only and invisible at run time. -/
theorem allocate_spec (cfg : Config) (hWF : cfg.WF) (c n : Nat)
    (hc : c ≤ cfg.N) :
    ((allocate cfg c n).1 ≠ none ↔ align_up cfg n ≤ cfg.N - c) ∧
    (align_up cfg n ≤ cfg.N - c →
      allocate cfg c n = (some (cfg.base + c), c + align_up cfg n)) ∧
    (cfg.N - c < align_up cfg n → allocate cfg c n = (none, c)) := by
  obtain ⟨⟨k, hk, hA⟩, hbase, hN, hb0⟩ := hWF
  have hrc : remainingCast cfg c = cfg.N - c := remainingCast_eq cfg hc hN
  by_cases hcond : align_up cfg n ≤ cfg.N - c
  · have h := allocate_eq_pos cfg c n (by omega)
    refine ⟨?_, fun _ => h, fun hlt => absurd hcond (by omega)⟩
    rw [h]
    simpa using hcond
  · have h := allocate_eq_neg cfg c n (by omega)
    refine ⟨?_, fun hle => absurd hle hcond, fun _ => h⟩
    rw [h]
    simpa using hcond

theorem allocate_spec_witness : allocate cfg64 8 5 = (some 24, 16) := by
  have h := (allocate_spec cfg64 cfg64_wf 8 5 (by decide)).2.1 (by decide)
  rw [h]
  decide

/-- C2: `deallocate(p, n)` is total and does exactly this: a pointer outside
`[buffer, buffer + N]` is a no-op; an in-range `p` with
`p + align_up(n) == pointer` rewinds the cursor to `p` (the new `pointer`
equals `p`); any other in-range pointer is a no-op. -/
theorem deallocate_spec (cfg : Config) (c p n : Nat) :
    (¬ (cfg.base ≤ p ∧ p ≤ cfg.base + cfg.N) → deallocate cfg c p n = c) ∧
    (cfg.base ≤ p ∧ p ≤ cfg.base + cfg.N →
      p + align_up cfg n = cfg.base + c →
      cfg.base + deallocate cfg c p n = p) ∧
    (cfg.base ≤ p ∧ p ≤ cfg.base + cfg.N →
      p + align_up cfg n ≠ cfg.base + c →
      deallocate cfg c p n = c) := by
  refine ⟨fun hout => ?_, fun hin heq => ?_, fun hin hne => ?_⟩
  · have hb : pointer_in_buffer cfg p = false := by
      rw [← Bool.not_eq_true, pointer_in_buffer_iff]
      exact hout
    simp [deallocate, hb]
  · have hb : pointer_in_buffer cfg p = true := (pointer_in_buffer_iff cfg p).2 hin
    have hd : deallocate cfg c p n = p - cfg.base := by
      simp [deallocate, hb, heq]
    rw [hd]
    omega
  · have hb : pointer_in_buffer cfg p = true := (pointer_in_buffer_iff cfg p).2 hin
    simp [deallocate, hb, hne]

theorem deallocate_spec_witness : 16 + deallocate cfg64 16 24 8 = 24 :=
  (deallocate_spec cfg64 16 24 8).2.1 (by decide) (by decide)

/-- C3: `resetToMarker(m)` sets the cursor to `m` when `m` is inside the
buffer range and `A`-aligned; when either check fails it writes the
diagnostic to the standard error stream (modelled by the Boolean component)
and leaves the cursor unchanged. -/
theorem resetToMarker_spec (cfg : Config) (hWF : cfg.WF) (c p : Nat) :
    ((cfg.base ≤ p ∧ p ≤ cfg.base + cfg.N) ∧ p % cfg.A = 0 →
      cfg.base + (resetToMarker cfg c p).1 = p) ∧
    (¬ ((cfg.base ≤ p ∧ p ≤ cfg.base + cfg.N) ∧ p % cfg.A = 0) →
      (resetToMarker cfg c p).2 = true ∧ (resetToMarker cfg c p).1 = c) := by
  obtain ⟨⟨k, hk, hA⟩, hbase, hN, hb0⟩ := hWF
  constructor
  · rintro ⟨hin, hal⟩
    have hb : pointer_in_buffer cfg p = true := (pointer_in_buffer_iff cfg p).2 hin
    have ha : isAligned cfg p = true := (isAligned_iff cfg hA p).2 hal
    have h1 : (resetToMarker cfg c p).1 = p - cfg.base := by
      simp [resetToMarker, hb, ha]
    rw [h1]
    omega
  · intro hnot
    refine ⟨rfl, ?_⟩
    have hcond : ¬ ((pointer_in_buffer cfg p && isAligned cfg p) = true) := by
      rw [Bool.and_eq_true, pointer_in_buffer_iff, isAligned_iff cfg hA]
      exact hnot
    rw [Bool.not_eq_true] at hcond
    simp [resetToMarker, hcond]

theorem resetToMarker_spec_witness :
    (resetToMarker cfg64 8 3).2 = true ∧ (resetToMarker cfg64 8 3).1 = 8 :=
  (resetToMarker_spec cfg64 cfg64_wf 8 3).2 (by decide)

/-- C5 counterexample: `n = 2 ^ 64 - 1` is a valid `std::size_t` size, and
with `A = 8` the sum `n + A - 1` wraps mod `2 ^ 64`, so `align_up` returns
`0`, which is smaller than `n` and therefore not the smallest multiple of
`A` that is `≥ n`. -/
theorem align_up_overflow_cex :
    align_up cfg64 (2 ^ 64 - 1) = 0 ∧
      ¬ (2 ^ 64 - 1 ≤ align_up cfg64 (2 ^ 64 - 1)) := by
  decide

/-- C5 amended: for every power-of-two alignment `A` and every size `n`
such that `n + A - 1` does not overflow `std::size_t` (that is,
`n ≤ 2 ^ 64 - A`; the original claim fails only for larger `n`),
`align_up(n) = (n + A - 1) & ~(A - 1)` is the smallest multiple of `A`
that is `≥ n`. -/
theorem align_up_correct (cfg : Config) (hWF : cfg.WF) (n : Nat)
    (hno : n + (cfg.A - 1) < wordSize) :
    cfg.A ∣ align_up cfg n ∧ n ≤ align_up cfg n ∧
      ∀ r, cfg.A ∣ r → n ≤ r → align_up cfg n ≤ r := by
  obtain ⟨⟨k, hk, hA⟩, hbase, hN, hb0⟩ := hWF
  exact ⟨align_up_dvd cfg hk hA n, align_up_ge cfg hk hA hno,
    fun r hdvd hnr => align_up_min cfg hk hA hno hdvd hnr⟩

theorem align_up_correct_witness :
    (8 : Nat) ∣ align_up cfg64 5 ∧ 5 ≤ align_up cfg64 5 ∧
      align_up cfg64 5 ≤ 8 := by
  have h := align_up_correct cfg64 cfg64_wf 5 (by decide)
  exact ⟨h.1, h.2.1, h.2.2 8 (by decide) (by decide)⟩

/-- C6 counterexample: with `N = 10` and `A = 8` (capacity not a multiple
of the alignment), after `reset()` the request `n = 9 ≤ N` fails, because
`align_up(9) = 16 > 10`.  So the original claim is false as stated. -/
theorem reset_allocate_cex :
    used (reset 7) = 0 ∧ 9 ≤ (10 : Nat) ∧
      (allocate ⟨10, 8, 16⟩ (reset 7) 9).1 = none := by
  decide

/-- C6 amended: after `reset()` the arena's `used()` equals `0`, and
provided `N` is a multiple of `A` (as in every scenario of the
specification; the original claim fails for `N` not a multiple of `A`),
every next allocation of `n ≤ N` bytes succeeds, returning the start of
the buffer. -/
theorem reset_allocate_ok (cfg : Config) (hWF : cfg.WF) (hNA : cfg.A ∣ cfg.N)
    (c : Nat) :
    used (reset c) = 0 ∧
      ∀ n, n ≤ cfg.N → (allocate cfg (reset c) n).1 = some cfg.base := by
  obtain ⟨⟨k, hk, hA⟩, hbase, hN, hb0⟩ := hWF
  refine ⟨rfl, fun n hn => ?_⟩
  have hw : 0 < wordSize := by decide
  have hdvdW : cfg.A ∣ wordSize := by
    rw [hA]
    exact pow_dvd_pow 2 hk
  have hAw : cfg.A ≤ wordSize := Nat.le_of_dvd hw hdvdW
  have hNle : cfg.N ≤ wordSize - cfg.A := by
    have h1 : cfg.A ∣ (wordSize - cfg.N) := Nat.dvd_sub' hdvdW hNA
    have h2 : 0 < wordSize - cfg.N := by omega
    have h3 : cfg.A ≤ wordSize - cfg.N := Nat.le_of_dvd h2 h1
    omega
  have hApos : 0 < cfg.A := by rw [hA]; exact Nat.two_pow_pos k
  have hno : n + (cfg.A - 1) < wordSize := by omega
  have halign : align_up cfg n ≤ cfg.N := align_up_min cfg hk hA hno hNA hn
  have hrc : remainingCast cfg 0 = cfg.N := by
    have h0 := remainingCast_eq cfg (Nat.zero_le cfg.N) hN
    simpa using h0
  show (allocate cfg 0 n).1 = some cfg.base
  rw [allocate_eq_pos cfg 0 n (by omega)]
  simp

theorem reset_allocate_ok_witness :
    used (reset 7) = 0 ∧ (allocate cfg64 (reset 7) 64).1 = some 16 := by
  have h := reset_allocate_ok cfg64 cfg64_wf (by decide) 7
  exact ⟨h.1, h.2 64 (by decide)⟩

/-- C7: take the marker `m = getCurrentMarker()` in any reachable state
with cursor `c0`; after any sequence of allocations whose padded sizes
total at most the space remaining at `m`, `resetToMarker(m)` restores
`used()` to exactly the value it had when `m` was taken. -/
theorem marker_restore (cfg : Config) (hWF : cfg.WF) {c0 : Nat}
    (hreach : Reachable cfg c0) (ns : List Nat)
    (_htot : (ns.map (align_up cfg)).sum ≤ cfg.N - c0) :
    used (resetToMarker cfg (allocMany cfg c0 ns) (getCurrentMarker cfg c0)).1 =
      used c0 := by
  obtain ⟨hdvd, hle⟩ := reachable_inv cfg hWF hreach
  obtain ⟨⟨k, hk, hA⟩, hbase, hN, hb0⟩ := hWF
  have hApos : 0 < cfg.A := by rw [hA]; exact Nat.two_pow_pos k
  have hin : cfg.base ≤ cfg.base + c0 ∧ cfg.base + c0 ≤ cfg.base + cfg.N :=
    ⟨Nat.le_add_right _ _, by omega⟩
  have hb : pointer_in_buffer cfg (cfg.base + c0) = true :=
    (pointer_in_buffer_iff cfg _).2 hin
  have hal : isAligned cfg (cfg.base + c0) = true := by
    rw [isAligned_iff cfg hA]
    exact Nat.mod_eq_zero_of_dvd
      (Nat.dvd_add (Nat.dvd_of_mod_eq_zero hbase) hdvd)
  have h1 : (resetToMarker cfg (allocMany cfg c0 ns)
      (getCurrentMarker cfg c0)).1 = (cfg.base + c0) - cfg.base := by
    simp [resetToMarker, getCurrentMarker, hb, hal]
  unfold used
  rw [h1]
  omega

theorem marker_restore_witness :
    used (resetToMarker cfg64 (allocMany cfg64 0 [24])
      (getCurrentMarker cfg64 0)).1 = used 0 :=
  marker_restore cfg64 cfg64_wf Reachable.init [24] (by decide)

/-- C8: if from a state with cursor `c` the allocation of `n` bytes
succeeds returning `p`, then an immediate `deallocate(p, n)` restores
`used()` to `c`, and a subsequent `allocate(n)` returns the same `p`. -/
theorem lifo_roundtrip (cfg : Config) (hWF : cfg.WF) (c n : Nat)
    (hc : c ≤ cfg.N) {p : Nat} (hsucc : (allocate cfg c n).1 = some p) :
    used (deallocate cfg (allocate cfg c n).2 p n) = used c ∧
      (allocate cfg (deallocate cfg (allocate cfg c n).2 p n) n).1 = some p := by
  obtain ⟨⟨k, hk, hA⟩, hbase, hN, hb0⟩ := hWF
  by_cases hcond : align_up cfg n ≤ remainingCast cfg c
  · have he := allocate_eq_pos cfg c n hcond
    have hp : p = cfg.base + c := by
      rw [he] at hsucc
      simpa using hsucc.symm
    have hrc : remainingCast cfg c = cfg.N - c := remainingCast_eq cfg hc hN
    have hb : pointer_in_buffer cfg p = true := by
      rw [pointer_in_buffer_iff, hp]
      exact ⟨Nat.le_add_right _ _, by omega⟩
    have heq : p + align_up cfg n = cfg.base + (allocate cfg c n).2 := by
      rw [he, hp]
      dsimp only
      omega
    have hd : deallocate cfg (allocate cfg c n).2 p n = p - cfg.base := by
      simp [deallocate, hb, heq]
    have hd2 : deallocate cfg (allocate cfg c n).2 p n = c := by
      rw [hd, hp]
      omega
    refine ⟨hd2, ?_⟩
    rw [hd2, allocate_eq_pos cfg c n hcond, hp]
  · rw [allocate_eq_neg cfg c n hcond] at hsucc
    simp at hsucc

theorem lifo_roundtrip_witness :
    used (deallocate cfg64 (allocate cfg64 8 5).2 24 5) = used 8 ∧
      (allocate cfg64 (deallocate cfg64 (allocate cfg64 8 5).2 24 5) 5).1 =
        some 24 :=
  lifo_roundtrip cfg64 cfg64_wf 8 5 (by decide) (by decide)

/-- C9: a zero-size request always succeeds, returns the current cursor
address `buffer + c` (which is nonzero, hence non-null, and lies within
`[buffer, buffer + N]`), and leaves `used()` unchanged. -/
theorem allocate_zero_spec (cfg : Config) (hWF : cfg.WF) (c : Nat)
    (hc : c ≤ cfg.N) :
    allocate cfg c 0 = (some (cfg.base + c), c) ∧
      0 < cfg.base + c ∧
      cfg.base ≤ cfg.base + c ∧ cfg.base + c ≤ cfg.base + cfg.N := by
  obtain ⟨⟨k, hk, hA⟩, hbase, hN, hb0⟩ := hWF
  have hApos : 0 < cfg.A := by rw [hA]; exact Nat.two_pow_pos k
  have hw : 0 < wordSize := by decide
  have hAw : cfg.A ≤ wordSize := by
    rw [hA]
    unfold wordSize
    exact Nat.pow_le_pow_right (by omega) hk
  have hz : align_up cfg 0 = 0 := by
    have hno : 0 + (cfg.A - 1) < wordSize := by omega
    rw [align_up_no_overflow cfg hk hA hno]
    have hmod : (0 + (cfg.A - 1)) % cfg.A = 0 + (cfg.A - 1) :=
      Nat.mod_eq_of_lt (by omega)
    omega
  have he := allocate_eq_pos cfg c 0 (by rw [hz]; exact Nat.zero_le _)
  rw [hz, Nat.add_zero] at he
  exact ⟨he, by omega, Nat.le_add_right _ _, by omega⟩

theorem allocate_zero_spec_witness :
    allocate cfg64 8 0 = (some 24, 8) ∧ 0 < (24 : Nat) ∧
      (16 : Nat) ≤ 24 ∧ (24 : Nat) ≤ 16 + 64 :=
  allocate_zero_spec cfg64 cfg64_wf 8 (by decide)

/-- C10: in every reachable state, `deallocate` never increases `used()`:
the cursor after the call is at most the cursor before it. -/
theorem deallocate_le (cfg : Config) {c : Nat} (_hreach : Reachable cfg c)
    (p n : Nat) : used (deallocate cfg c p n) ≤ used c := by
  unfold used
  by_cases hin : pointer_in_buffer cfg p = true
  · by_cases heq : p + align_up cfg n = cfg.base + c
    · have h1 : deallocate cfg c p n = p - cfg.base := by
        simp [deallocate, hin, heq]
      have hl : cfg.base ≤ p := ((pointer_in_buffer_iff cfg p).1 hin).1
      rw [h1]
      omega
    · have h1 : deallocate cfg c p n = c := by
        simp [deallocate, hin, heq]
      rw [h1]
  · rw [Bool.not_eq_true] at hin
    have h1 : deallocate cfg c p n = c := by
      simp [deallocate, hin]
    rw [h1]

theorem deallocate_le_witness : used (deallocate cfg64 0 99 3) ≤ used 0 :=
  deallocate_le cfg64 Reachable.init 99 3

end StackAllocator
